import Mathlib

/-!
Verification development for the Tkinter appointment scheduler
(`src/app.py`).  The domain layer is shallowly embedded:

* `Appuntamento` mirrors the Python class of the same name: a title
  (stored stripped), a start datetime, and a duration in minutes.
* Python `datetime` values are embedded as `PyDateTime` records of
  calendar fields, microseconds and an optional UTC offset; comparisons
  and `timedelta` addition go through the linear time axis via
  `PyDateTime.toTicks` (microseconds since the civil epoch, computed
  with the standard days-from-civil formula, offset-corrected for
  aware values).  This is faithful because Python datetime ordering on
  comparable values is isomorphic to the time axis and
  `+ timedelta(minutes=m)` is translation by `60000000*m` ticks.
* `datetime.isoformat` / `datetime.fromisoformat` are embedded as an
  executable formatter and parser for the documented emitted-format
  grammar `YYYY-MM-DD[*HH[:MM[:SS[.f+]]]][offset]` — fractional
  seconds, reduced-precision times, an arbitrary separator character
  and UTC offsets included — validating field ranges the way the
  `datetime` and `timezone` constructors do.
* Python `str.strip` is `pyStrip` (ASCII whitespace set), and `int(x)`
  applied to a JSON value is `pyIntOfJVal`: identity on integers,
  decimal-string coercion on strings, truncation on floats and `1`/`0`
  on booleans, as in CPython.
* The Tkinter controller `GestoreAppuntamenti` is embedded as pure
  state-passing functions over its `appuntamenti : List Appuntamento`
  field; dialog answers (`messagebox.askyesno`) and file-system
  outcomes are explicit boolean/inductive parameters.
-/

namespace Sched

/-! ### Characters and digits -/

/-- Decimal digit test, `'0' ≤ c ≤ '9'`. -/
def isDig (c : Char) : Bool := 48 ≤ c.toNat && c.toNat ≤ 57

/-- Numeric value of a digit character. -/
def charVal (c : Char) : Nat := c.toNat - 48

/-- The digit character for `d < 10`. -/
def digitChar (d : Nat) : Char := Char.ofNat (48 + d)

/-- Decimal digits of `n`, most significant first; structural recursion
on a fuel bound (any fuel above `n` gives the same answer). -/
def natDigitsAux : Nat → Nat → List Char
  | 0, n => [digitChar n]
  | fuel + 1, n =>
      if n < 10 then [digitChar n]
      else natDigitsAux fuel (n / 10) ++ [digitChar (n % 10)]

/-- Decimal digits of `n`, most significant first (as characters). -/
def natDigits (n : Nat) : List Char := natDigitsAux n n

/-- Accumulating decimal value of a digit-character list. -/
def digitsValFrom (acc : Nat) (ds : List Char) : Nat :=
  ds.foldl (fun a c => a * 10 + charVal c) acc

/-- Render `n` in decimal, left-padded with `'0'` to width `k`. -/
def padDigits (k n : Nat) : List Char :=
  List.replicate (k - (natDigits n).length) '0' ++ natDigits n

/-! ### Python `str.strip` (whitespace model: the ASCII whitespace
characters Python strips; the appointments in this program only ever
contain ASCII text) -/

/-- Python whitespace test for `str.strip`. -/
def isPyWS (c : Char) : Bool :=
  c = ' ' || c = '\t' || c = '\n' || c = '\x0d' || c = '\x0b' || c = '\x0c'

/-- Strip leading whitespace from a character list. -/
def lstripL (cs : List Char) : List Char := cs.dropWhile isPyWS

/-- Strip trailing whitespace from a character list. -/
def rstripL (cs : List Char) : List Char := (cs.reverse.dropWhile isPyWS).reverse

/-- Strip both ends, as Python `str.strip()`. -/
def stripL (cs : List Char) : List Char := rstripL (lstripL cs)

/-- Embedding of Python `str.strip()`. -/
def pyStrip (s : String) : String := String.mk (stripL s.data)

/-! ### Python `int(string)`

CPython `int` on a `str` strips whitespace, accepts an optional sign
and a nonempty run of decimal digits, and raises `ValueError`
otherwise.  (Digit-group underscores, which CPython also accepts, play
no role in any claim and are not modelled.) -/

/-- Value of a nonempty all-digit character list, else `none`. -/
def natOfDigits? (ds : List Char) : Option Nat :=
  if ds ≠ [] ∧ ds.all isDig then some (digitsValFrom 0 ds) else none

/-- Sign handling of CPython `int(str)` after whitespace stripping. -/
def pyIntCore (cs : List Char) : Option Int :=
  match cs with
  | '+' :: ds => (natOfDigits? ds).map (fun n => (n : Int))
  | '-' :: ds => (natOfDigits? ds).map (fun n => -(n : Int))
  | ds => (natOfDigits? ds).map (fun n => (n : Int))

/-- Embedding of CPython `int(s)` for a string argument. -/
def pyIntOfString (s : String) : Option Int := pyIntCore (stripL s.data)

/-! ### Datetimes -/

/-- Embedding of a Python `datetime`: the calendar fields, the
microsecond field, and the UTC offset in seconds of an aware value
(`none` for a naive one).  The program's own UI only ever constructs
naive, microsecond-free values, but `fromisoformat` can produce any of
these from a stored record, so the entity carries them all. -/
structure PyDateTime where
  year : Nat
  month : Nat
  day : Nat
  hour : Nat
  minute : Nat
  second : Nat
  micro : Nat
  tzOff : Option Int
  deriving DecidableEq, Repr

/-- The `datetime(year, month, day, hour, minute)` call `_parse_form`
makes: naive, seconds and microseconds zero. -/
def naiveDT (y mo d h mi : Nat) : PyDateTime :=
  ⟨y, mo, d, h, mi, 0, 0, none⟩

/-- Gregorian leap-year rule (as Python's `calendar.isleap`). -/
def isLeap (y : Nat) : Bool := (y % 4 == 0 && y % 100 != 0) || y % 400 == 0

/-- Days in a month, as validated by the `datetime` constructor. -/
def daysInMonth (y m : Nat) : Nat :=
  if m = 2 then (if isLeap y then 29 else 28)
  else if m = 4 ∨ m = 6 ∨ m = 9 ∨ m = 11 then 30 else 31

/-- The range checks the Python `datetime` and `timezone` constructors
enforce: calendar field bounds, microseconds below one million, and an
aware offset strictly within a day. -/
def PyDateTime.validB (t : PyDateTime) : Bool :=
  decide (1 ≤ t.year) && decide (t.year ≤ 9999) &&
  decide (1 ≤ t.month) && decide (t.month ≤ 12) &&
  decide (1 ≤ t.day) && decide (t.day ≤ daysInMonth t.year t.month) &&
  decide (t.hour ≤ 23) && decide (t.minute ≤ 59) && decide (t.second ≤ 59) &&
  decide (t.micro ≤ 999999) &&
  (match t.tzOff with
   | none => true
   | some o => decide (o.natAbs ≤ 86399))

/-- A `PyDateTime` whose fields a Python `datetime` could hold. -/
def PyDateTime.Valid (t : PyDateTime) : Prop := t.validB = true

instance (t : PyDateTime) : Decidable t.Valid := by
  unfold PyDateTime.Valid; infer_instance

/-- Days since 0000-03-01 of a civil date (Hinnant days-from-civil,
kept in `Nat` since valid years start at 1). -/
def daysFromCivil (y m d : Nat) : Nat :=
  let y' := if m ≤ 2 then y - 1 else y
  let era := y' / 400
  let yoe := y' % 400
  let mp := (m + 9) % 12
  let doy := (153 * mp + 2) / 5 + d - 1
  let doe := yoe * 365 + yoe / 4 - yoe / 100 + doy
  era * 146097 + doe

/-- Position of a datetime on the linear time axis, in ticks of one
microsecond (offset subtracted for an aware value, so aware values
compare by instant).  Python datetime comparison agrees with
comparison of these values on comparable (all-naive or all-aware)
datetimes — mixed naive/aware comparison raises in Python and never
happens in this program — and adding `timedelta(minutes=m)` is adding
`60000000*m` here. -/
def PyDateTime.toTicks (t : PyDateTime) : Int :=
  ((daysFromCivil t.year t.month t.day * 86400 +
      t.hour * 3600 + t.minute * 60 + t.second : Nat) : Int) * 1000000 +
    (t.micro : Int) -
    (match t.tzOff with
     | none => 0
     | some o => o * 1000000)

/-! ### ISO-8601 codec (`datetime.isoformat` / `datetime.fromisoformat`)

`isoformat()` emits `YYYY-MM-DDTHH:MM:SS[.ffffff][±HH:MM[:SS]]`: the
fraction only for a nonzero microsecond field, the offset only for an
aware value (with a seconds part only when the offset has seconds).
The parser below accepts the documented inverse grammar
`YYYY-MM-DD[*HH[:MM[:SS[.f+]]]][±HH:MM[:SS] or Z]` — every string any
supported CPython's `fromisoformat` emitted-format family accepts: an
arbitrary single-character date/time separator, reduced-precision
times down to `HH`, `.` or `,` fractions of one or more digits
(truncated to microseconds), and UTC offsets incl. `Z`/`z`.  The extra
ISO-8601 spellings CPython ≥ 3.11 additionally parses (basic format
without separators, week and ordinal dates) are never produced by any
serializer of this program and stay outside the model. -/

/-- Fractional-seconds part of `isoformat()`. -/
def fracL (micro : Nat) : List Char :=
  if micro = 0 then [] else '.' :: padDigits 6 micro

/-- UTC-offset part of `isoformat()`. -/
def offL : Option Int → List Char
  | none => []
  | some o =>
      (if o < 0 then '-' else '+') ::
        (padDigits 2 (o.natAbs / 3600) ++ ':' ::
          (padDigits 2 (o.natAbs % 3600 / 60) ++
            (if o.natAbs % 60 = 0 then []
             else ':' :: padDigits 2 (o.natAbs % 60))))

/-- Character list of `t.isoformat()`. -/
def isoformatL (t : PyDateTime) : List Char :=
  padDigits 4 t.year ++ '-' ::
    (padDigits 2 t.month ++ '-' ::
      (padDigits 2 t.day ++ 'T' ::
        (padDigits 2 t.hour ++ ':' ::
          (padDigits 2 t.minute ++ ':' ::
            (padDigits 2 t.second ++ (fracL t.micro ++ offL t.tzOff))))))

/-- Embedding of `datetime.isoformat()`. -/
def isoformat (t : PyDateTime) : String := String.mk (isoformatL t)

/-- Read exactly `k` digit characters, returning the accumulated value
and the rest of the input. -/
def readN : Nat → Nat → List Char → Option (Nat × List Char)
  | 0, acc, cs => some (acc, cs)
  | k + 1, acc, c :: cs =>
      if isDig c then readN k (acc * 10 + charVal c) cs else none
  | _ + 1, _, [] => none

/-- Require character `c` at the head of the input. -/
def expectCh (c : Char) : List Char → Option (List Char)
  | d :: cs => if d = c then some cs else none
  | [] => none

/-- Range-validate parsed fields, as the `datetime` and `timezone`
constructors do. -/
def mkValidated (y mo d h mi s micro : Nat) (off : Option Int) :
    Option PyDateTime :=
  let t : PyDateTime := ⟨y, mo, d, h, mi, s, micro, off⟩
  if t.validB then some t else none

/-- Parse the body of a `±HH:MM[:SS]` UTC offset (after the sign),
with the range checks the `timezone` constructor implies. -/
def readOffBody (sign : Int) (cs : List Char) : Option (Option Int) :=
  match readN 2 0 cs with
  | none => none
  | some (oh, cs) =>
    match expectCh ':' cs with
    | none => none
    | some cs =>
      match readN 2 0 cs with
      | none => none
      | some (om, cs) =>
        match cs with
        | [] =>
            if oh ≤ 23 ∧ om ≤ 59 then
              some (some (sign * ((oh : Int) * 3600 + (om : Int) * 60)))
            else none
        | c :: cs2 =>
            if c = ':' then
              match readN 2 0 cs2 with
              | none => none
              | some (os, cs3) =>
                  match cs3 with
                  | [] =>
                      if oh ≤ 23 ∧ om ≤ 59 ∧ os ≤ 59 then
                        some (some (sign *
                          ((oh : Int) * 3600 + (om : Int) * 60 + (os : Int))))
                      else none
                  | _ => none
            else none

/-- Parse the end of a time string: nothing (naive), `Z`/`z` (UTC), or
a signed offset. -/
def parseOffEnd : List Char → Option (Option Int)
  | [] => some none
  | c :: cs =>
      if c = 'Z' ∨ c = 'z' then (if cs = [] then some (some 0) else none)
      else if c = '+' then readOffBody 1 cs
      else if c = '-' then readOffBody (-1) cs
      else none

/-- Parse the digit run of a seconds fraction (one or more digits,
truncated to microseconds as CPython does) and then the offset. -/
def parseFracThen (y mo d h mi s : Nat) (cs : List Char) :
    Option PyDateTime :=
  let digs := cs.takeWhile isDig
  let rest := cs.dropWhile isDig
  if digs = [] then none
  else
    let six := digs.take 6
    let micro := digitsValFrom 0 six * 10 ^ (6 - six.length)
    match parseOffEnd rest with
    | none => none
    | some off => mkValidated y mo d h mi s micro off

/-- Finish a time string: parse the trailing offset (or nothing) and
validate. -/
def finishTime (y mo d h mi s micro : Nat) (cs : List Char) :
    Option PyDateTime :=
  match parseOffEnd cs with
  | none => none
  | some off => mkValidated y mo d h mi s micro off

/-- Parse the time-of-day tail `HH[:MM[:SS[{. or ,}f+]]]` plus an
optional offset, after the separator character. -/
def parseTimeTail (y mo d : Nat) (cs : List Char) : Option PyDateTime :=
  match readN 2 0 cs with
  | none => none
  | some (h, cs1) =>
    match cs1 with
    | [] => finishTime y mo d h 0 0 0 []
    | c :: cs2 =>
      if c = ':' then
        match readN 2 0 cs2 with
        | none => none
        | some (mi, cs3) =>
          match cs3 with
          | [] => finishTime y mo d h mi 0 0 []
          | c2 :: cs4 =>
            if c2 = ':' then
              match readN 2 0 cs4 with
              | none => none
              | some (s, cs5) =>
                match cs5 with
                | [] => finishTime y mo d h mi s 0 []
                | c3 :: cs6 =>
                    if c3 = '.' ∨ c3 = ',' then parseFracThen y mo d h mi s cs6
                    else finishTime y mo d h mi s 0 (c3 :: cs6)
            else finishTime y mo d h mi 0 0 (c2 :: cs4)
      else finishTime y mo d h 0 0 0 (c :: cs2)

/-- Parse `YYYY-MM-DD`, optionally followed by one separator character
(any character, as `fromisoformat` allows) and a time tail. -/
def parseISO (cs : List Char) : Option PyDateTime :=
  match readN 4 0 cs with
  | none => none
  | some (y, cs) =>
    match expectCh '-' cs with
    | none => none
    | some cs =>
      match readN 2 0 cs with
      | none => none
      | some (mo, cs) =>
        match expectCh '-' cs with
        | none => none
        | some cs =>
          match readN 2 0 cs with
          | none => none
          | some (d, cs) =>
            match cs with
            | [] => mkValidated y mo d 0 0 0 0 none
            | _ :: rest => parseTimeTail y mo d rest

/-- Embedding of `datetime.fromisoformat`. -/
def fromisoformat (s : String) : Option PyDateTime := parseISO s.data

/-! ### JSON values and records

The persisted file holds a JSON array of objects with keys `titolo`,
`data_ora`, `durata`.  A `JRecord` is one such object: each field is
`none` when the key is absent (Python raises `KeyError`). -/

/-- A JSON scalar as it can appear in a stored record: `json.load`
yields `str`, `int`, `float`, `bool` or `None`.  A JSON number with a
fraction or exponent becomes a Python float; its value is modelled
exactly as a rational (a decimal literal is a rational, and the
binary64 rounding CPython applies can only shift a value by amounts
immaterial to the integer-truncation behavior the claims concern;
JSON has no NaN or infinity). -/
inductive JVal where
  | jstr (s : String)
  | jint (n : Int)
  | jfloat (q : Rat)
  | jbool (b : Bool)
  | jnull
  deriving DecidableEq, Repr

/-- One object of the persisted JSON array. -/
structure JRecord where
  titolo : Option JVal
  data_ora : Option JVal
  durata : Option JVal
  deriving DecidableEq, Repr

/-- A JSON value used where Python needs a `str` (`.strip()` or
`fromisoformat` argument): non-strings raise (`AttributeError` /
`TypeError`). -/
def asPyStr : JVal → Option String
  | .jstr s => some s
  | _ => none

/-- Truncation toward zero, as Python `int(float)`. -/
def ratTrunc (q : Rat) : Int := Int.tdiv q.num q.den

/-- Embedding of Python `int(v)` on a JSON value: identity on
integers, decimal coercion on strings, truncation toward zero on
floats, `True`/`False` as `1`/`0` (`bool` is an `int` subclass), and
`TypeError` on `null`. -/
def pyIntOfJVal : JVal → Option Int
  | .jint n => some n
  | .jstr s => pyIntOfString s
  | .jfloat q => some (ratTrunc q)
  | .jbool b => some (if b then 1 else 0)
  | .jnull => none

/-! ### The `Appuntamento` entity -/

/-- Embedding of the Python class `Appuntamento`: the three stored
fields.  `durata` is an `Int` exactly like a Python `int`. -/
structure Appuntamento where
  titolo : String
  data_ora : PyDateTime
  durata : Int
  deriving DecidableEq, Repr

/-- Embedding of `Appuntamento.__init__`: strips the title (Python
`titolo.strip()`); `int(durata_min)` is the identity on an `int`. -/
def Appuntamento.init (titolo : String) (data_ora : PyDateTime)
    (durata_min : Int) : Appuntamento :=
  ⟨pyStrip titolo, data_ora, durata_min⟩

/-- Start instant of an appointment on the time axis, in microsecond
ticks. -/
def Appuntamento.inizioTicks (a : Appuntamento) : Int := a.data_ora.toTicks

/-- Embedding of the `fine` property, `data_ora +
timedelta(minutes=durata)`, as an instant on the time axis. -/
def Appuntamento.fine (a : Appuntamento) : Int :=
  a.data_ora.toTicks + a.durata * 60000000

/-- Embedding of `Appuntamento.to_dict`. -/
def Appuntamento.to_dict (a : Appuntamento) : JRecord :=
  { titolo := some (.jstr a.titolo)
    data_ora := some (.jstr (isoformat a.data_ora))
    durata := some (.jint a.durata) }

/-- Embedding of `Appuntamento.from_dict`: key lookups raise on a
missing key; `fromisoformat` needs a string that parses; `int` accepts
an `int`, a numeric string, a `float` (truncated) or a `bool`; the
constructor strips the title (and raises if it is not a string). -/
def Appuntamento.from_dict (d : JRecord) : Option Appuntamento :=
  match d.titolo, d.data_ora, d.durata with
  | some tv, some sv, some dv =>
      match asPyStr tv, (asPyStr sv).bind fromisoformat, pyIntOfJVal dv with
      | some t, some start, some n => some (Appuntamento.init t start n)
      | _, _, _ => none
  | _, _, _ => none

/-! ### The controller `GestoreAppuntamenti`

Its mutable field `self.appuntamenti : list[Appuntamento]` is passed
and returned explicitly.  `messagebox.askyesno` answers and file-system
outcomes are parameters; `messagebox` display and the listbox redraw
have no effect on the collection and are dropped. -/

namespace GestoreAppuntamenti

/-- Sort key order used by `_refresh_list`:
`key=lambda a: a.data_ora`. -/
def ascStart (a b : Appuntamento) : Prop :=
  a.data_ora.toTicks ≤ b.data_ora.toTicks

instance : DecidableRel ascStart := fun a b =>
  inferInstanceAs (Decidable (a.data_ora.toTicks ≤ b.data_ora.toTicks))

instance : IsTotal Appuntamento ascStart :=
  ⟨fun a b => Int.le_total a.data_ora.toTicks b.data_ora.toTicks⟩

instance : IsTrans Appuntamento ascStart :=
  ⟨fun _ _ _ h1 h2 => Int.le_trans h1 h2⟩

/-- Embedding of `_refresh_list`'s effect on the collection:
`self.appuntamenti.sort(key=lambda a: a.data_ora)`.  Python `list.sort`
is stable; a stable sort w.r.t. a total preorder is extensionally
unique, so the structurally recursive stable `insertionSort` is the
same function. -/
def _refresh_list (l : List Appuntamento) : List Appuntamento :=
  l.insertionSort ascStart

/-- The loop condition of `_find_overlap`:
`new_ap.data_ora < ap.fine and new_ap.fine > ap.data_ora`. -/
def overlaps (new_ap ap : Appuntamento) : Bool :=
  decide (new_ap.inizioTicks < ap.fine) &&
    decide (new_ap.fine > ap.inizioTicks)

/-- Embedding of `_find_overlap`: first stored appointment whose time
window overlaps the candidate. -/
def _find_overlap (l : List Appuntamento) (new_ap : Appuntamento) :
    Option Appuntamento :=
  l.find? (overlaps new_ap)

/-- Embedding of `_parse_form`.  The date picker and the time combobox
are presentation widgets outside the core; their already-combined
result is the `start` argument, so the `time_str` emptiness test and
the date/time-combination `except` branch (unreachable for a formed
`start`) do not appear.  What remains is exactly the validation the
claims are about: all-fields-nonempty, then
`int(duration_str)` with `duration <= 0` rejected. -/
def _parse_form (title : String) (start : PyDateTime)
    (duration_str : String) : Option Appuntamento :=
  let t := pyStrip title
  let d := pyStrip duration_str
  if t = "" || d = "" then none
  else
    match pyIntOfString d with
    | none => none
    | some n => if n ≤ 0 then none else some (Appuntamento.init t start n)

/-- Outcome of `_save` (status-bar message on exception). -/
inductive SaveOutcome where
  | success
  | ioError
  deriving DecidableEq, Repr

/-- Embedding of `_save`: writes a snapshot; never assigns
`self.appuntamenti`, so the collection comes back unchanged whether the
write succeeds or raises. -/
def _save (l : List Appuntamento) (writeOk : Bool) :
    List Appuntamento × SaveOutcome :=
  (l, if writeOk then .success else .ioError)

/-- Outcome of `_add_appointment`. -/
inductive AddOutcome where
  | added
  | forced (conflict : Appuntamento)
  | cancelled (conflict : Appuntamento)
  deriving DecidableEq, Repr

/-- Embedding of `_add_appointment` from the parsed candidate on:
overlap check, optional user confirmation on conflict, append,
re-sort, save.  `confirm` is the `askyesno` answer (only consulted on
a conflict); `writeOk` is whether the file write succeeds. -/
def _add_appointment (l : List Appuntamento) (ap : Appuntamento)
    (confirm writeOk : Bool) :
    List Appuntamento × AddOutcome × Option SaveOutcome :=
  match _find_overlap l ap with
  | some conflict =>
      if confirm then
        let l1 := _refresh_list (l ++ [ap])
        let (l2, so) := _save l1 writeOk
        (l2, .forced conflict, some so)
      else (l, .cancelled conflict, none)
  | none =>
      let l1 := _refresh_list (l ++ [ap])
      let (l2, so) := _save l1 writeOk
      (l2, .added, some so)

/-- Outcome of `_delete_selected`. -/
inductive DeleteOutcome where
  | removed
  | cancelled
  | indexError
  deriving DecidableEq, Repr

/-- Embedding of `_delete_selected` from the selection index on:
`self.appuntamenti[idx]` raises `IndexError` out of bounds (before the
confirmation dialog); on a confirmed delete, `del` removes position
`idx`, then re-sort and save. -/
def _delete_selected (l : List Appuntamento) (idx : Nat)
    (confirm writeOk : Bool) :
    List Appuntamento × DeleteOutcome × Option SaveOutcome :=
  if idx < l.length then
    if confirm then
      let l1 := _refresh_list (l.eraseIdx idx)
      let (l2, so) := _save l1 writeOk
      (l2, .removed, some so)
    else (l, .cancelled, none)
  else (l, .indexError, none)

/-- State of the backing file `appointments.json` as `_load` can find
it: absent, present but not valid JSON, or a parsed record array
(`json.load` is the library JSON parser; its outcome is what matters
here). -/
inductive FileState where
  | absent
  | malformed
  | wellFormed (recs : List JRecord)

/-- Outcome of `_load` (warning dialog on exception). -/
inductive LoadOutcome where
  | success
  | formatError
  deriving DecidableEq, Repr

/-- The list comprehension `[Appuntamento.from_dict(d) for d in data]`:
all records deserialize or the whole expression raises. -/
def loadRecords : List JRecord → Option (List Appuntamento)
  | [] => some []
  | r :: rs =>
      match Appuntamento.from_dict r, loadRecords rs with
      | some a, some as => some (a :: as)
      | _, _ => none

/-- Embedding of `_load`: missing file returns at once; a parse or
`from_dict` exception is caught before `self.appuntamenti` is
reassigned (the list comprehension runs to completion first), leaving
the collection untouched. -/
def _load (l : List Appuntamento) (f : FileState) :
    List Appuntamento × LoadOutcome :=
  match f with
  | .absent => (l, .success)
  | .malformed => (l, .formatError)
  | .wellFormed recs =>
      match loadRecords recs with
      | some aps => (aps, .success)
      | none => (l, .formatError)

end GestoreAppuntamenti

/-! ### Concrete fixtures used by examples in the claims -/

/-- Fold a sequence of user add actions from an empty store, the
confirmation answer defaulting to no and each file write succeeding. -/
def addAll (aps : List Appuntamento) : List Appuntamento :=
  aps.foldl (fun s ap => (GestoreAppuntamenti._add_appointment s ap false true).1) []

/-- Appointment 2024-03-15 10:00, 30 minutes. -/
def ap10 : Appuntamento := Appuntamento.init "Ten" (naiveDT 2024 3 15 10 0) 30

/-- Appointment 2024-03-15 08:00, 30 minutes. -/
def ap08 : Appuntamento := Appuntamento.init "Eight" (naiveDT 2024 3 15 8 0) 30

/-- Appointment 2024-03-15 09:00, 30 minutes. -/
def ap09 : Appuntamento := Appuntamento.init "Nine" (naiveDT 2024 3 15 9 0) 30

/-- Appointment A of the spec's overlap examples: 09:00, 60 minutes. -/
def apA : Appuntamento := Appuntamento.init "A" (naiveDT 2024 3 15 9 0) 60

/-- Appointment B of the spec's overlap examples: 09:30, 60 minutes. -/
def apB : Appuntamento := Appuntamento.init "B" (naiveDT 2024 3 15 9 30) 60

/-! ## Lemmas: decimal digits and fixed-width parsing -/

theorem charVal_digitChar {d : Nat} (h : d < 10) :
    charVal (digitChar d) = d := by
  interval_cases d <;> decide

theorem isDig_digitChar {d : Nat} (h : d < 10) :
    isDig (digitChar d) = true := by
  interval_cases d <;> decide

theorem natDigitsAux_congr (n : Nat) :
    ∀ f g, n ≤ f → n ≤ g → natDigitsAux f n = natDigitsAux g n := by
  induction n using Nat.strong_induction_on with
  | _ n ih =>
    intro f g hf hg
    match f, g with
    | 0, 0 => rfl
    | 0, g + 1 =>
        have : n = 0 := Nat.le_zero.mp hf
        subst this; simp [natDigitsAux]
    | f + 1, 0 =>
        have : n = 0 := Nat.le_zero.mp hg
        subst this; simp [natDigitsAux]
    | f + 1, g + 1 =>
        by_cases h10 : n < 10
        · simp [natDigitsAux, h10]
        · have hdiv : n / 10 < n := Nat.div_lt_self (by omega) (by omega)
          have ihd := ih (n / 10) hdiv f g (by omega) (by omega)
          simp [natDigitsAux, h10, ihd]

theorem natDigits_eq (n : Nat) :
    natDigits n =
      if n < 10 then [digitChar n]
      else natDigits (n / 10) ++ [digitChar (n % 10)] := by
  unfold natDigits
  by_cases h10 : n < 10
  · match n with
    | 0 => rfl
    | m + 1 => simp [natDigitsAux, h10]
  · match n, h10 with
    | m + 1, h10 =>
        have hdiv : (m + 1) / 10 < m + 1 := Nat.div_lt_self (by omega) (by omega)
        have := natDigitsAux_congr ((m + 1) / 10) m ((m + 1) / 10)
          (by omega) (Nat.le_refl _)
        simp [natDigitsAux, h10, this]

theorem digitsValFrom_append_one (acc : Nat) (l : List Char) (c : Char) :
    digitsValFrom acc (l ++ [c]) = digitsValFrom acc l * 10 + charVal c := by
  simp [digitsValFrom, List.foldl_append]

theorem digitsValFrom_natDigits (n : Nat) :
    digitsValFrom 0 (natDigits n) = n := by
  induction n using Nat.strong_induction_on with
  | _ n ih =>
    rw [natDigits_eq]
    by_cases h10 : n < 10
    · simp [h10, digitsValFrom, charVal_digitChar h10]
    · have hdiv : n / 10 < n := Nat.div_lt_self (by omega) (by omega)
      simp [h10, digitsValFrom_append_one, ih (n / 10) hdiv,
        charVal_digitChar (Nat.mod_lt n (by omega))]
      omega

theorem natDigits_all_dig (n : Nat) :
    ∀ c ∈ natDigits n, isDig c = true := by
  induction n using Nat.strong_induction_on with
  | _ n ih =>
    rw [natDigits_eq]
    by_cases h10 : n < 10
    · simp [h10, isDig_digitChar h10]
    · have hdiv : n / 10 < n := Nat.div_lt_self (by omega) (by omega)
      simp only [h10, if_false, List.mem_append, List.mem_singleton]
      rintro c (hc | rfl)
      · exact ih (n / 10) hdiv c hc
      · exact isDig_digitChar (Nat.mod_lt n (by omega))

theorem natDigits_length_le (k : Nat) :
    ∀ n, 1 ≤ k → n < 10 ^ k → (natDigits n).length ≤ k := by
  induction k with
  | zero => omega
  | succ k ihk =>
    intro n _ hn
    rw [natDigits_eq]
    by_cases h10 : n < 10
    · rw [if_pos h10]; simp
    · have hk1 : 1 ≤ k := by
        rcases Nat.eq_zero_or_pos k with h | h
        · subst h; simp at hn; omega
        · exact h
      have hdiv : n / 10 < 10 ^ k := by
        rw [Nat.div_lt_iff_lt_mul (by omega)]
        calc n < 10 ^ (k + 1) := hn
        _ = 10 ^ k * 10 := by ring
      simp only [h10, if_false, List.length_append, List.length_singleton]
      have := ihk (n / 10) hk1 hdiv
      omega

theorem padDigits_length {k n : Nat} (h : (natDigits n).length ≤ k) :
    (padDigits k n).length = k := by
  simp [padDigits]
  omega

theorem padDigits_all_dig (k n : Nat) :
    ∀ c ∈ padDigits k n, isDig c = true := by
  intro c hc
  rcases List.mem_append.mp hc with h | h
  · rw [List.eq_of_mem_replicate h]; decide
  · exact natDigits_all_dig n c h

theorem digitsValFrom_zero_cons (ds : List Char) :
    digitsValFrom 0 ('0' :: ds) = digitsValFrom 0 ds := by
  simp [digitsValFrom, charVal]

theorem digitsValFrom_padDigits (k n : Nat) :
    digitsValFrom 0 (padDigits k n) = n := by
  rw [padDigits]
  generalize k - (natDigits n).length = m
  induction m with
  | zero => simpa using digitsValFrom_natDigits n
  | succ m ihm => simpa [List.replicate_succ, digitsValFrom_zero_cons] using ihm

theorem readN_exact (ds : List Char) :
    ∀ acc rest, (∀ c ∈ ds, isDig c = true) →
      readN ds.length acc (ds ++ rest) = some (digitsValFrom acc ds, rest) := by
  induction ds with
  | nil => intro acc rest _; rfl
  | cons c t iht =>
    intro acc rest hdig
    have hc : isDig c = true := hdig c (List.mem_cons_self c t)
    simp only [List.length_cons, List.cons_append, readN, hc, if_true]
    have := iht (acc * 10 + charVal c) rest
      (fun x hx => hdig x (List.mem_cons_of_mem c hx))
    show readN t.length (acc * 10 + charVal c) (t ++ rest) = _
    rw [this]
    rfl

theorem readN_pad {k n : Nat} (rest : List Char) (hk : 1 ≤ k)
    (hn : n < 10 ^ k) :
    readN k 0 (padDigits k n ++ rest) = some (n, rest) := by
  have hlen : (padDigits k n).length = k :=
    padDigits_length (natDigits_length_le k n hk hn)
  calc readN k 0 (padDigits k n ++ rest)
      = readN (padDigits k n).length 0 (padDigits k n ++ rest) := by rw [hlen]
    _ = some (digitsValFrom 0 (padDigits k n), rest) :=
        readN_exact _ 0 rest (padDigits_all_dig k n)
    _ = some (n, rest) := by rw [digitsValFrom_padDigits]

theorem readN_pad_nil {k n : Nat} (hk : 1 ≤ k) (hn : n < 10 ^ k) :
    readN k 0 (padDigits k n) = some (n, []) := by
  have := readN_pad (k := k) (n := n) [] hk hn
  simpa using this

/-! ## Lemmas: the ISO codec round trip -/

theorem validB_bounds {t : PyDateTime} (h : t.Valid) :
    1 ≤ t.year ∧ t.year ≤ 9999 ∧ 1 ≤ t.month ∧ t.month ≤ 12 ∧ 1 ≤ t.day ∧
      t.day ≤ daysInMonth t.year t.month ∧ t.hour ≤ 23 ∧ t.minute ≤ 59 ∧
      t.second ≤ 59 ∧ t.micro ≤ 999999 := by
  unfold PyDateTime.Valid PyDateTime.validB at h
  cases htz : t.tzOff <;> rw [htz] at h <;>
    simp only [Bool.and_eq_true, decide_eq_true_eq] at h <;> tauto

theorem validB_off {t : PyDateTime} (h : t.Valid) :
    ∀ o, t.tzOff = some o → o.natAbs ≤ 86399 := by
  intro o ho
  unfold PyDateTime.Valid PyDateTime.validB at h
  rw [ho] at h
  simp only [Bool.and_eq_true, decide_eq_true_eq] at h
  exact h.2

theorem daysInMonth_le (y m : Nat) : daysInMonth y m ≤ 31 := by
  unfold daysInMonth
  split_ifs <;> omega

theorem takeWhile_all_append (p : Char → Bool) (ds rest : List Char)
    (hds : ∀ c ∈ ds, p c = true)
    (hrest : ∀ c, rest.head? = some c → p c = false) :
    (ds ++ rest).takeWhile p = ds ∧ (ds ++ rest).dropWhile p = rest := by
  induction ds with
  | nil =>
      simp only [List.nil_append]
      cases rest with
      | nil => simp
      | cons c r =>
          have hc : p c = false := hrest c rfl
          simp [List.takeWhile_cons, List.dropWhile_cons, hc]
  | cons d ds' ih =>
      have hd : p d = true := hds d (List.mem_cons_self d ds')
      have ih' := ih fun c hc => hds c (List.mem_cons_of_mem d hc)
      simp [List.takeWhile_cons, List.dropWhile_cons, hd, ih'.1, ih'.2]

theorem offL_head_not_dig (off : Option Int) :
    ∀ c, (offL off).head? = some c → isDig c = false := by
  intro c hc
  cases off with
  | none => simp [offL] at hc
  | some o =>
      by_cases hneg : o < 0 <;> simp [offL, hneg] at hc <;>
        rw [← hc] <;> decide

theorem parseOffEnd_plus (cs : List Char) :
    parseOffEnd ('+' :: cs) = readOffBody 1 cs := by
  simp [parseOffEnd]

theorem parseOffEnd_minus (cs : List Char) :
    parseOffEnd ('-' :: cs) = readOffBody (-1) cs := by
  simp [parseOffEnd]

/-- The body of a rendered offset parses back to the signed seconds it
was rendered from. -/
theorem readOffBody_render (sign : Int) (n : Nat) (hn : n ≤ 86399) :
    readOffBody sign
      (padDigits 2 (n / 3600) ++ ':' ::
        (padDigits 2 (n % 3600 / 60) ++
          (if n % 60 = 0 then [] else ':' :: padDigits 2 (n % 60)))) =
      some (some (sign * (n : Int))) := by
  have hoh : n / 3600 < 10 ^ 2 := by omega
  have hom : n % 3600 / 60 < 10 ^ 2 := by omega
  have hos : n % 60 < 10 ^ 2 := by omega
  rw [readOffBody, readN_pad _ (by omega) hoh]
  simp only [expectCh, if_pos]
  by_cases hsec : n % 60 = 0
  · rw [if_pos hsec, List.append_nil, readN_pad_nil (by omega) hom]
    simp only [if_pos (And.intro (show n / 3600 ≤ 23 by omega)
      (show n % 3600 / 60 ≤ 59 by omega))]
    have heq : ((n / 3600 : Nat) : Int) * 3600 +
        ((n % 3600 / 60 : Nat) : Int) * 60 = (n : Int) := by omega
    rw [heq]
  · rw [if_neg hsec, readN_pad _ (by omega) hom]
    simp only [if_pos rfl]
    rw [readN_pad_nil (by omega) hos]
    simp only [if_pos (And.intro (show n / 3600 ≤ 23 by omega)
      (And.intro (show n % 3600 / 60 ≤ 59 by omega)
        (show n % 60 ≤ 59 by omega)))]
    have heq : ((n / 3600 : Nat) : Int) * 3600 +
        ((n % 3600 / 60 : Nat) : Int) * 60 + ((n % 60 : Nat) : Int) =
        (n : Int) := by omega
    rw [heq]
    simp

/-- The offset renderer and parser are inverse. -/
theorem parseOffEnd_offL {off : Option Int}
    (hb : ∀ x, off = some x → x.natAbs ≤ 86399) :
    parseOffEnd (offL off) = some off := by
  cases off with
  | none => rfl
  | some x =>
      have hx : x.natAbs ≤ 86399 := hb x rfl
      by_cases hneg : x < 0
      · rw [offL, if_pos hneg, parseOffEnd_minus,
          readOffBody_render (-1) x.natAbs hx]
        congr 2
        omega
      · rw [offL, if_neg hneg, parseOffEnd_plus,
          readOffBody_render 1 x.natAbs hx]
        congr 2
        omega

/-- The fraction-and-offset tail parses back to the microsecond and
offset it was rendered from. -/
theorem parseFracThen_render (y mo d h mi s micro : Nat) (off : Option Int)
    (hmic : micro < 10 ^ 6)
    (hb : ∀ x, off = some x → x.natAbs ≤ 86399) :
    parseFracThen y mo d h mi s (padDigits 6 micro ++ offL off) =
      mkValidated y mo d h mi s micro off := by
  have hlen : (padDigits 6 micro).length = 6 :=
    padDigits_length (natDigits_length_le 6 micro (by omega) hmic)
  have hsplit := takeWhile_all_append isDig (padDigits 6 micro) (offL off)
    (padDigits_all_dig 6 micro) (offL_head_not_dig off)
  have hne : padDigits 6 micro ≠ [] := by
    intro h0
    rw [h0] at hlen
    simp at hlen
  rw [parseFracThen]
  simp only [hsplit.1, hsplit.2, if_neg hne]
  rw [List.take_of_length_le (by omega), hlen]
  simp only [Nat.sub_self, pow_zero, Nat.mul_one, digitsValFrom_padDigits]
  rw [parseOffEnd_offL hb]

/-- The time tail of `isoformat` output parses back to its fields. -/
theorem parseTimeTail_render (y mo d h mi s micro : Nat) (off : Option Int)
    (hh : h < 10 ^ 2) (hmi : mi < 10 ^ 2) (hs : s < 10 ^ 2)
    (hmic : micro < 10 ^ 6)
    (hb : ∀ x, off = some x → x.natAbs ≤ 86399) :
    parseTimeTail y mo d
      (padDigits 2 h ++ ':' ::
        (padDigits 2 mi ++ ':' ::
          (padDigits 2 s ++ (fracL micro ++ offL off)))) =
      mkValidated y mo d h mi s micro off := by
  rw [parseTimeTail, readN_pad _ (by omega) hh]
  simp only [eq_self_iff_true, if_true]
  rw [readN_pad _ (by omega) hmi]
  simp only [eq_self_iff_true, if_true]
  rw [readN_pad _ (by omega) hs]
  by_cases hmic0 : micro = 0
  · subst hmic0
    simp only [fracL, eq_self_iff_true, if_true, List.nil_append]
    cases off with
    | none =>
        simp only [offL]
        simp [finishTime, parseOffEnd]
    | some x =>
        have hx : x.natAbs ≤ 86399 := hb x rfl
        by_cases hneg : x < 0
        · simp only [offL, if_pos hneg]
          simp only [show ¬('-' = '.' ∨ '-' = ',') from by decide, if_false]
          rw [finishTime, parseOffEnd_minus, readOffBody_render (-1) x.natAbs hx]
          have hval : (-1 : Int) * (x.natAbs : Int) = x := by omega
          rw [hval]
        · simp only [offL, if_neg hneg]
          simp only [show ¬('+' = '.' ∨ '+' = ',') from by decide, if_false]
          rw [finishTime, parseOffEnd_plus, readOffBody_render 1 x.natAbs hx]
          have hval : (1 : Int) * (x.natAbs : Int) = x := by omega
          rw [hval]
  · simp only [fracL, if_neg hmic0, List.cons_append]
    simp only [true_or, if_true]
    exact parseFracThen_render y mo d h mi s micro off hmic hb

/-- The codec round trip behind the persistence contract: parsing the
serialized form of any constructible datetime gives it back. -/
theorem fromisoformat_isoformat {t : PyDateTime} (h : t.Valid) :
    fromisoformat (isoformat t) = some t := by
  obtain ⟨h1, h2, h3, h4, h5, h6, h7, h8, h9, h10⟩ := validB_bounds h
  have hy : t.year < 10 ^ 4 := by omega
  have hmo : t.month < 10 ^ 2 := by omega
  have hd : t.day < 10 ^ 2 := by
    have := daysInMonth_le t.year t.month
    omega
  have hh : t.hour < 10 ^ 2 := by omega
  have hmi : t.minute < 10 ^ 2 := by omega
  have hs : t.second < 10 ^ 2 := by omega
  have hmic : t.micro < 10 ^ 6 := by omega
  have hv : t.validB = true := h
  show parseISO (isoformatL t) = some t
  rw [isoformatL, parseISO, readN_pad _ (by omega) hy]
  simp only [expectCh, if_pos]
  rw [readN_pad _ (by omega) hmo]
  simp only [expectCh, if_pos]
  rw [readN_pad _ (by omega) hd]
  simp only []
  rw [parseTimeTail_render t.year t.month t.day t.hour t.minute t.second
    t.micro t.tzOff hh hmi hs hmic (validB_off h)]
  simp [mkValidated, hv]

/-! ## Lemmas: `str.strip` -/

theorem dropWhile_idem (p : α → Bool) (l : List α) :
    List.dropWhile p (List.dropWhile p l) = List.dropWhile p l := by
  induction l with
  | nil => rfl
  | cons a t ih =>
    by_cases h : p a
    · simp [List.dropWhile_cons, h, ih]
    · simp [List.dropWhile_cons, h]

theorem lstripL_idem (l : List Char) : lstripL (lstripL l) = lstripL l :=
  dropWhile_idem _ l

theorem rstripL_idem (l : List Char) : rstripL (rstripL l) = rstripL l := by
  simp [rstripL, List.reverse_reverse, dropWhile_idem]

theorem head_not_ws_of_lstripped {c : Char} {t : List Char}
    (h : lstripL (c :: t) = c :: t) : isPyWS c = false := by
  by_cases hpc : isPyWS c
  · exfalso
    unfold lstripL at h
    rw [List.dropWhile_cons, if_pos hpc] at h
    have hlen := congrArg List.length h
    have hle := (List.dropWhile_sublist (l := t) isPyWS).length_le
    simp at hlen
    omega
  · simpa using hpc

theorem lstripL_rstripL_of_lstripped (y : List Char)
    (h : lstripL y = y) : lstripL (rstripL y) = rstripL y := by
  cases y with
  | nil => rfl
  | cons c t =>
    have hc : isPyWS c = false := head_not_ws_of_lstripped h
    unfold rstripL
    rw [List.reverse_cons, List.dropWhile_append]
    by_cases he : (List.dropWhile isPyWS t.reverse).isEmpty
    · rw [if_pos he]
      simp [List.dropWhile_cons, hc, lstripL]
    · rw [if_neg he]
      rw [List.reverse_append]
      simp [lstripL, List.dropWhile_cons, hc]

theorem stripL_idem (l : List Char) : stripL (stripL l) = stripL l := by
  unfold stripL
  rw [lstripL_rstripL_of_lstripped (lstripL l) (lstripL_idem l)]
  exact rstripL_idem _

theorem pyStrip_idem (s : String) : pyStrip (pyStrip s) = pyStrip s :=
  congrArg String.mk (stripL_idem s.data)

theorem Appuntamento.init_titolo_stripped (ti : String) (st : PyDateTime)
    (du : Int) : pyStrip (Appuntamento.init ti st du).titolo =
      (Appuntamento.init ti st du).titolo :=
  pyStrip_idem ti

/-! ## The claims -/

/-- C1: the conflict check flags a candidate against an existing
appointment exactly when the half-open interval predicate
`candidate.start < existing.end AND candidate.end > existing.start`
holds; accordingly `_find_overlap` reports a conflict iff some stored
appointment satisfies that predicate against the candidate, and two
back-to-back appointments (`first.fine = second.data_ora`) are never
flagged, in either direction. -/
theorem C1_overlap_halfopen :
    (∀ cand ex : Appuntamento, GestoreAppuntamenti.overlaps cand ex = true ↔
        (cand.inizioTicks < ex.fine ∧ cand.fine > ex.inizioTicks)) ∧
    (∀ (l : List Appuntamento) (cand : Appuntamento),
        (GestoreAppuntamenti._find_overlap l cand).isSome = true ↔
          ∃ ex ∈ l, cand.inizioTicks < ex.fine ∧ cand.fine > ex.inizioTicks) ∧
    (∀ a b : Appuntamento, a.fine = b.inizioTicks →
        GestoreAppuntamenti.overlaps a b = false ∧
        GestoreAppuntamenti.overlaps b a = false) := by
  refine ⟨?_, ?_, ?_⟩
  · intro cand ex
    simp [GestoreAppuntamenti.overlaps]
  · intro l cand
    rw [GestoreAppuntamenti._find_overlap, List.find?_isSome]
    simp [GestoreAppuntamenti.overlaps]
  · intro a b h
    constructor <;> simp [GestoreAppuntamenti.overlaps] <;> omega

/-- Witness for C1's back-to-back clause at the concrete pair
09:00–10:00 / 10:00–11:00. -/
theorem C1_overlap_halfopen_witness :
    apA.fine = (Appuntamento.init "C" (naiveDT 2024 3 15 10 0) 60).inizioTicks ∧
    GestoreAppuntamenti.overlaps apA
        (Appuntamento.init "C" (naiveDT 2024 3 15 10 0) 60) = false ∧
    GestoreAppuntamenti.overlaps
        (Appuntamento.init "C" (naiveDT 2024 3 15 10 0) 60) apA = false :=
  ⟨by decide,
    (C1_overlap_halfopen.2.2 apA _ (by decide)).1,
    (C1_overlap_halfopen.2.2 apA _ (by decide)).2⟩

/-- C2: serializing and deserializing an appointment with a stripped
non-empty title, a constructible start datetime, and a positive
duration gives back an equal appointment (all three stored fields, so
also the derived `fine`). -/
theorem C2_serialize_roundtrip (a : Appuntamento)
    (ht : pyStrip a.titolo = a.titolo) (_hne : a.titolo ≠ "")
    (hs : a.data_ora.Valid) (_hd : 0 < a.durata) :
    Appuntamento.from_dict a.to_dict = some a := by
  unfold Appuntamento.to_dict Appuntamento.from_dict
  simp [asPyStr, fromisoformat_isoformat hs, pyIntOfJVal, Appuntamento.init, ht]

/-- Witness for C2 at a concrete appointment. -/
theorem C2_serialize_roundtrip_witness :
    pyStrip "Dentist" = "Dentist" ∧ ("Dentist" : String) ≠ "" ∧
    PyDateTime.Valid (naiveDT 2024 3 15 9 0) ∧ (0 : Int) < 30 ∧
    Appuntamento.from_dict
        (Appuntamento.to_dict ⟨"Dentist", (naiveDT 2024 3 15 9 0), 30⟩) =
      some ⟨"Dentist", (naiveDT 2024 3 15 9 0), 30⟩ :=
  ⟨by decide, by decide, by decide, by decide,
    C2_serialize_roundtrip ⟨"Dentist", (naiveDT 2024 3 15 9 0), 30⟩
      (by decide) (by decide) (by decide) (by decide)⟩

/-- C3: a call to `_add_appointment` or `_delete_selected` either
leaves the collection exactly as it was (the branches that do not
mutate) or leaves it sorted ascending by start — so after every
mutation every subsequent read observes an ascending collection.  In
particular, inserting 10:00, 08:00 and 09:00 appointments (pairwise
non-overlapping) in each of the six possible orders lists them as
08:00, 09:00, 10:00. -/
theorem C3_sorted_after_mutation :
    (∀ (l : List Appuntamento) (ap : Appuntamento) (confirm writeOk : Bool),
        (GestoreAppuntamenti._add_appointment l ap confirm writeOk).1 = l ∨
        List.Sorted GestoreAppuntamenti.ascStart
          (GestoreAppuntamenti._add_appointment l ap confirm writeOk).1) ∧
    (∀ (l : List Appuntamento) (idx : Nat) (confirm writeOk : Bool),
        (GestoreAppuntamenti._delete_selected l idx confirm writeOk).1 = l ∨
        List.Sorted GestoreAppuntamenti.ascStart
          (GestoreAppuntamenti._delete_selected l idx confirm writeOk).1) ∧
    ((addAll [ap10, ap08, ap09]).map Appuntamento.data_ora =
        [(naiveDT 2024 3 15 8 0), (naiveDT 2024 3 15 9 0), (naiveDT 2024 3 15 10 0)] ∧
     (addAll [ap10, ap09, ap08]).map Appuntamento.data_ora =
        [(naiveDT 2024 3 15 8 0), (naiveDT 2024 3 15 9 0), (naiveDT 2024 3 15 10 0)] ∧
     (addAll [ap08, ap10, ap09]).map Appuntamento.data_ora =
        [(naiveDT 2024 3 15 8 0), (naiveDT 2024 3 15 9 0), (naiveDT 2024 3 15 10 0)] ∧
     (addAll [ap08, ap09, ap10]).map Appuntamento.data_ora =
        [(naiveDT 2024 3 15 8 0), (naiveDT 2024 3 15 9 0), (naiveDT 2024 3 15 10 0)] ∧
     (addAll [ap09, ap10, ap08]).map Appuntamento.data_ora =
        [(naiveDT 2024 3 15 8 0), (naiveDT 2024 3 15 9 0), (naiveDT 2024 3 15 10 0)] ∧
     (addAll [ap09, ap08, ap10]).map Appuntamento.data_ora =
        [(naiveDT 2024 3 15 8 0), (naiveDT 2024 3 15 9 0), (naiveDT 2024 3 15 10 0)]) := by
  refine ⟨?_, ?_, by decide, by decide, by decide, by decide, by decide, by decide⟩
  · intro l ap confirm writeOk
    unfold GestoreAppuntamenti._add_appointment
    cases GestoreAppuntamenti._find_overlap l ap with
    | none =>
        right
        exact List.sorted_insertionSort GestoreAppuntamenti.ascStart (l ++ [ap])
    | some c =>
        cases confirm with
        | false => left; rfl
        | true =>
            right
            exact List.sorted_insertionSort GestoreAppuntamenti.ascStart (l ++ [ap])
  · intro l idx confirm writeOk
    unfold GestoreAppuntamenti._delete_selected
    by_cases h : idx < l.length
    · rw [if_pos h]
      cases confirm with
      | false => left; rfl
      | true =>
          right
          exact List.sorted_insertionSort GestoreAppuntamenti.ascStart (l.eraseIdx idx)
    · rw [if_neg h]; left; rfl

/-- C4: when the candidate overlaps something, the reported conflict is
the first overlapping appointment in collection order, a declined add
leaves the collection exactly as it was and performs no save, and a
confirmed (forced) add of the same candidate grows the collection by
exactly one. -/
theorem C4_conflict_reporting (l : List Appuntamento) (ap c : Appuntamento)
    (w : Bool) (h : GestoreAppuntamenti._find_overlap l ap = some c) :
    (GestoreAppuntamenti.overlaps ap c = true ∧
      ∃ pre post, l = pre ++ c :: post ∧
        ∀ x ∈ pre, GestoreAppuntamenti.overlaps ap x = false) ∧
    GestoreAppuntamenti._add_appointment l ap false w =
      (l, .cancelled c, none) ∧
    ((GestoreAppuntamenti._add_appointment l ap true w).1).length =
      l.length + 1 := by
  refine ⟨?_, ?_, ?_⟩
  · obtain ⟨hp, pre, post, hsplit, hpre⟩ := List.find?_eq_some.mp h
    exact ⟨hp, pre, post, hsplit, fun x hx => by
      have := hpre x hx
      simp at this
      exact this⟩
  · unfold GestoreAppuntamenti._add_appointment
    rw [h]
    rfl
  · unfold GestoreAppuntamenti._add_appointment
    rw [h]
    have hp := (List.perm_insertionSort GestoreAppuntamenti.ascStart
      (l ++ [ap])).length_eq
    unfold GestoreAppuntamenti._refresh_list GestoreAppuntamenti._save
    simp at hp ⊢

/-- Witness for C4 at the spec's overlapping pair: store `[apA]`,
candidate `apB`. -/
theorem C4_conflict_reporting_witness :
    GestoreAppuntamenti._find_overlap [apA] apB = some apA ∧
    GestoreAppuntamenti._add_appointment [apA] apB false true =
      ([apA], .cancelled apA, none) ∧
    ((GestoreAppuntamenti._add_appointment [apA] apB true true).1).length =
      [apA].length + 1 :=
  ⟨by decide,
    (C4_conflict_reporting [apA] apB apA true (by decide)).2.1,
    (C4_conflict_reporting [apA] apB apA true (by decide)).2.2⟩

theorem pyIntOfString_empty : pyIntOfString "" = none := rfl

/-- C5: form validation rejects exactly the inputs whose stripped title
is empty, whose duration does not convert to an integer, or whose
duration is non-positive; on success the appointment carries the
stripped title, the given start, and the parsed positive duration. -/
theorem C5_create_validation (title : String) (start : PyDateTime)
    (duration_str : String) :
    (GestoreAppuntamenti._parse_form title start duration_str = none ↔
      pyStrip title = "" ∨ pyIntOfString (pyStrip duration_str) = none ∨
        ∃ n, pyIntOfString (pyStrip duration_str) = some n ∧ n ≤ 0) ∧
    (∀ ap, GestoreAppuntamenti._parse_form title start duration_str = some ap →
      ap.titolo = pyStrip title ∧ ap.data_ora = start ∧
        ∃ n, pyIntOfString (pyStrip duration_str) = some n ∧ 0 < n ∧
          ap.durata = n) := by
  unfold GestoreAppuntamenti._parse_form
  by_cases ht : pyStrip title = ""
  · simp [ht]
  · by_cases hd0 : pyStrip duration_str = ""
    · simp [ht, hd0, pyIntOfString_empty]
    · cases hpi : pyIntOfString (pyStrip duration_str) with
      | none => simp [ht, hd0, hpi]
      | some n =>
          by_cases hn : n ≤ 0
          · simp [ht, hd0, hpi, hn]
          · simp [ht, hd0, hpi, hn, Appuntamento.init, pyStrip_idem]
            omega

/-- Witness for C5's success direction at a concrete form input. -/
theorem C5_create_validation_witness :
    GestoreAppuntamenti._parse_form " Dentist " (naiveDT 2024 3 15 9 0) "30" =
      some (Appuntamento.init "Dentist" (naiveDT 2024 3 15 9 0) 30) ∧
    pyStrip " Dentist " = "Dentist" ∧
    ¬ (GestoreAppuntamenti._parse_form "  " (naiveDT 2024 3 15 9 0) "30" ≠ none) :=
  ⟨by decide, by decide, fun hne => hne (((C5_create_validation "  "
      (naiveDT 2024 3 15 9 0) "30").1).mpr (Or.inl (by decide)))⟩

/-- C6: loading with no backing file succeeds and keeps the default
empty collection (and, in general, leaves any collection unchanged);
loading an existing but unparseable file — malformed JSON, or a record
array some record of which does not deserialize — reports the
non-fatal format error and leaves the collection exactly as it was. -/
theorem C6_load_missing_or_malformed (l : List Appuntamento)
    (recs : List JRecord)
    (hbad : GestoreAppuntamenti.loadRecords recs = none) :
    GestoreAppuntamenti._load [] .absent = ([], .success) ∧
    (∀ s : List Appuntamento,
        GestoreAppuntamenti._load s .absent = (s, .success)) ∧
    GestoreAppuntamenti._load l .malformed = (l, .formatError) ∧
    GestoreAppuntamenti._load l (.wellFormed recs) = (l, .formatError) := by
  refine ⟨rfl, fun s => rfl, rfl, ?_⟩
  have hstep : GestoreAppuntamenti._load l (.wellFormed recs) =
      (match GestoreAppuntamenti.loadRecords recs with
       | some aps => (aps, GestoreAppuntamenti.LoadOutcome.success)
       | none => (l, GestoreAppuntamenti.LoadOutcome.formatError)) := rfl
  rw [hstep, hbad]

/-- Witness for C6 with a record missing every field. -/
theorem C6_load_missing_or_malformed_witness :
    GestoreAppuntamenti.loadRecords [⟨none, none, none⟩] = none ∧
    GestoreAppuntamenti._load [apA] (.wellFormed [⟨none, none, none⟩]) =
      ([apA], .formatError) :=
  ⟨by decide,
    (C6_load_missing_or_malformed [apA] [⟨none, none, none⟩] (by decide)).2.2.2⟩

theorem count_eraseIdx_getElem [DecidableEq α] (l : List α) (idx : Nat)
    (h : idx < l.length) :
    (l.eraseIdx idx).count l[idx] = l.count l[idx] - 1 := by
  have key : ∀ x : α, List.drop idx l = x :: List.drop (idx + 1) l →
      (l.eraseIdx idx).count x = l.count x - 1 := by
    intro x hdrop
    rw [List.eraseIdx_eq_take_drop_succ]
    conv_rhs => rw [← List.take_append_drop idx l, hdrop]
    rw [List.count_append, List.count_append, List.count_cons]
    simp
  exact key l[idx] (List.drop_eq_getElem_cons h)

/-- C7: deleting at an index at or beyond the collection size raises
`IndexError` and changes nothing (no save is even attempted); a
confirmed delete at a valid index shrinks the collection by exactly
one and removes exactly that occurrence — the occurrence count of the
appointment at that position drops by one, so when it occurred once it
is absent from every subsequent listing. -/
theorem C7_remove (l : List Appuntamento) (idx : Nat) (writeOk : Bool)
    (h : idx < l.length) :
    (∀ (l' : List Appuntamento) (i : Nat) (confirm w : Bool),
        l'.length ≤ i →
        GestoreAppuntamenti._delete_selected l' i confirm w =
          (l', .indexError, none)) ∧
    ((GestoreAppuntamenti._delete_selected l idx true writeOk).1).length =
      l.length - 1 ∧
    ((GestoreAppuntamenti._delete_selected l idx true writeOk).1).count l[idx] =
      l.count l[idx] - 1 ∧
    (l.count l[idx] = 1 →
      l[idx] ∉ (GestoreAppuntamenti._delete_selected l idx true writeOk).1) := by
  have hres : (GestoreAppuntamenti._delete_selected l idx true writeOk).1 =
      (l.eraseIdx idx).insertionSort GestoreAppuntamenti.ascStart := by
    unfold GestoreAppuntamenti._delete_selected GestoreAppuntamenti._save
    rw [if_pos h]
    rfl
  have hperm := List.perm_insertionSort GestoreAppuntamenti.ascStart
    (l.eraseIdx idx)
  refine ⟨?_, ?_, ?_, ?_⟩
  · intro l' i confirm w hle
    unfold GestoreAppuntamenti._delete_selected
    rw [if_neg (by omega)]
  · rw [hres, hperm.length_eq, List.length_eraseIdx, if_pos h]
  · rw [hres, hperm.count_eq, count_eraseIdx_getElem l idx h]
  · intro hone
    rw [hres]
    intro hmem
    have hc := hperm.count_eq l[idx]
    rw [count_eraseIdx_getElem l idx h, hone] at hc
    have hz : ((l.eraseIdx idx).insertionSort GestoreAppuntamenti.ascStart).count
        l[idx] = 0 := by omega
    exact (List.count_eq_zero.mp hz) hmem

/-- Witness for C7 at the singleton store `[apA]`, index 0. -/
theorem C7_remove_witness :
    ((GestoreAppuntamenti._delete_selected [apA] 0 true true).1).length = 0 ∧
    GestoreAppuntamenti._delete_selected [apA] 1 true true =
      ([apA], .indexError, none) ∧
    apA ∉ (GestoreAppuntamenti._delete_selected [apA] 0 true true).1 :=
  ⟨(C7_remove [apA] 0 true (by decide)).2.1,
    (C7_remove [apA] 0 true (by decide)).1 [apA] 1 true true (by decide),
    (C7_remove [apA] 0 true (by decide)).2.2.2 (by decide)⟩

/-- C8: `_save` returns the collection it was given whether or not the
write succeeds, and the state produced by an add or a delete does not
depend on the write outcome — a failed save never rolls back the
mutation that triggered it. -/
theorem C8_save_never_mutates :
    (∀ (l : List Appuntamento) (writeOk : Bool),
        (GestoreAppuntamenti._save l writeOk).1 = l) ∧
    (∀ (l : List Appuntamento) (ap : Appuntamento) (confirm w1 w2 : Bool),
        (GestoreAppuntamenti._add_appointment l ap confirm w1).1 =
        (GestoreAppuntamenti._add_appointment l ap confirm w2).1) ∧
    (∀ (l : List Appuntamento) (idx : Nat) (confirm w1 w2 : Bool),
        (GestoreAppuntamenti._delete_selected l idx confirm w1).1 =
        (GestoreAppuntamenti._delete_selected l idx confirm w2).1) := by
  refine ⟨fun l w => rfl, ?_, ?_⟩
  · intro l ap confirm w1 w2
    unfold GestoreAppuntamenti._add_appointment GestoreAppuntamenti._save
    cases GestoreAppuntamenti._find_overlap l ap <;> cases confirm <;> rfl
  · intro l idx confirm w1 w2
    unfold GestoreAppuntamenti._delete_selected GestoreAppuntamenti._save
    by_cases h : idx < l.length <;> cases confirm <;> simp [h]

/-- C9 counterexample: the claim requires `from_dict` to fail whenever
a field has the wrong type, but wrong-typed `durata` fields — a
numeric JSON string, a JSON float, a JSON boolean — all deserialize:
CPython `int()` coerces the string, truncates the float (`int(30.5)`
is `30`), and treats `bool` as the `int` subclass it is (`int(True)`
is `1`). -/
theorem C9_wrong_type_counterexample :
    Appuntamento.from_dict
        ⟨some (.jstr "Dentist"), some (.jstr "2024-03-15T09:30:00"),
          some (.jstr "30")⟩ =
      some ⟨"Dentist", naiveDT 2024 3 15 9 30, 30⟩ ∧
    Appuntamento.from_dict
        ⟨some (.jstr "Dentist"), some (.jstr "2024-03-15T09:30:00"),
          some (.jfloat (mkRat 61 2))⟩ =
      some ⟨"Dentist", naiveDT 2024 3 15 9 30, 30⟩ ∧
    Appuntamento.from_dict
        ⟨some (.jstr "Dentist"), some (.jstr "2024-03-15T09:30:00"),
          some (.jbool true)⟩ =
      some ⟨"Dentist", naiveDT 2024 3 15 9 30, 1⟩ :=
  ⟨by decide, by decide, by decide⟩

/-- C9 as amended: `from_dict` fails exactly when a field is missing,
when `titolo` or `data_ora` is not a string, when `data_ora` is a
string `fromisoformat` cannot parse, or when `durata` is not
convertible by Python `int()` — that is, `durata` is `null` or a
non-numeric string.  Wrong-typed `durata` values that are numeric
strings, floats or booleans all convert, so wrong type alone never
makes deserialization fail. -/
theorem C9_deserialize_failure_iff (d : JRecord) :
    Appuntamento.from_dict d = none ↔
      d.titolo = none ∨ d.data_ora = none ∨ d.durata = none ∨
      (∃ tv, d.titolo = some tv ∧ asPyStr tv = none) ∨
      (∃ sv, d.data_ora = some sv ∧ (asPyStr sv).bind fromisoformat = none) ∨
      (∃ dv, d.durata = some dv ∧ pyIntOfJVal dv = none) := by
  obtain ⟨tt, ss, dd⟩ := d
  cases tt with
  | none => simp [Appuntamento.from_dict]
  | some tv =>
    cases ss with
    | none => simp [Appuntamento.from_dict]
    | some sv =>
      cases dd with
      | none => simp [Appuntamento.from_dict]
      | some dv =>
          cases hA : asPyStr tv with
          | none => simp [Appuntamento.from_dict, hA]
          | some t =>
            cases hB : (asPyStr sv).bind fromisoformat with
            | none =>
                simp [Appuntamento.from_dict, hA, hB]
                cases hS : asPyStr sv with
                | none => left; intro a ha; cases ha
                | some s =>
                    left; intro a ha; cases ha
                    rw [hS] at hB; simpa using hB
            | some st =>
              cases hC : pyIntOfJVal dv with
              | none => simp [Appuntamento.from_dict, hA, hB, hC]
              | some n =>
                  simp [Appuntamento.from_dict, hA, hB, hC]
                  cases hS : asPyStr sv with
                  | none => rw [hS] at hB; simp at hB
                  | some s =>
                      rw [hS] at hB; simp at hB
                      exact ⟨s, rfl, by rw [hB]; simp⟩

/-- Witness for C9's amended characterization: a record whose start is
not parseable ISO-8601 fails. -/
theorem C9_deserialize_failure_iff_witness :
    Appuntamento.from_dict
        ⟨some (.jstr "Dentist"), some (.jstr "not-a-date"),
          some (.jint 30)⟩ = none :=
  (C9_deserialize_failure_iff
      ⟨some (.jstr "Dentist"), some (.jstr "not-a-date"),
        some (.jint 30)⟩).mpr
    (Or.inr (Or.inr (Or.inr (Or.inr (Or.inl
      ⟨JVal.jstr "not-a-date", rfl, by decide⟩)))))

theorem from_dict_shape {d : JRecord} {a : Appuntamento}
    (h : Appuntamento.from_dict d = some a) :
    ∃ t start n, a = Appuntamento.init t start n := by
  obtain ⟨tt, ss, dd⟩ := d
  cases tt with
  | none => simp [Appuntamento.from_dict] at h
  | some tv =>
    cases ss with
    | none => simp [Appuntamento.from_dict] at h
    | some sv =>
      cases dd with
      | none => simp [Appuntamento.from_dict] at h
      | some dv =>
          cases hA : asPyStr tv with
          | none => simp [Appuntamento.from_dict, hA] at h
          | some t =>
            cases hB : (asPyStr sv).bind fromisoformat with
            | none => simp [Appuntamento.from_dict, hA, hB] at h
            | some st =>
              cases hC : pyIntOfJVal dv with
              | none => simp [Appuntamento.from_dict, hA, hB, hC] at h
              | some n =>
                  simp [Appuntamento.from_dict, hA, hB, hC] at h
                  exact ⟨t, st, n, h.symm⟩

theorem loadRecords_mem {recs : List JRecord} {aps : List Appuntamento}
    (h : GestoreAppuntamenti.loadRecords recs = some aps) :
    ∀ x ∈ aps, ∃ r, Appuntamento.from_dict r = some x := by
  induction recs generalizing aps with
  | nil =>
      unfold GestoreAppuntamenti.loadRecords at h
      cases h
      simp
  | cons r rs ih =>
      unfold GestoreAppuntamenti.loadRecords at h
      cases hfd : Appuntamento.from_dict r with
      | none => rw [hfd] at h; simp at h
      | some a =>
          rw [hfd] at h
          cases hrs : GestoreAppuntamenti.loadRecords rs with
          | none => rw [hrs] at h; simp at h
          | some as =>
              rw [hrs] at h
              simp at h
              subst h
              intro x hx
              rcases List.mem_cons.mp hx with rfl | hx'
              · exact ⟨r, hfd⟩
              · exact ih hrs x hx'

/-- C10: titles are stored stripped everywhere: the constructor strips,
deserialization strips (even when the record carries untrimmed text),
and every store operation only ever holds appointments built that way,
so `titolo = strip titolo` holds for every appointment observable
after any operation. -/
theorem C10_titles_stripped :
    (∀ (ti : String) (st : PyDateTime) (du : Int),
        pyStrip (Appuntamento.init ti st du).titolo =
          (Appuntamento.init ti st du).titolo) ∧
    (∀ (d : JRecord) (a : Appuntamento), Appuntamento.from_dict d = some a →
        pyStrip a.titolo = a.titolo) ∧
    (∀ (l : List Appuntamento) (ap : Appuntamento) (confirm writeOk : Bool),
        (∀ x ∈ l, pyStrip x.titolo = x.titolo) →
        pyStrip ap.titolo = ap.titolo →
        ∀ x ∈ (GestoreAppuntamenti._add_appointment l ap confirm writeOk).1,
          pyStrip x.titolo = x.titolo) ∧
    (∀ (l : List Appuntamento) (idx : Nat) (confirm writeOk : Bool),
        (∀ x ∈ l, pyStrip x.titolo = x.titolo) →
        ∀ x ∈ (GestoreAppuntamenti._delete_selected l idx confirm writeOk).1,
          pyStrip x.titolo = x.titolo) ∧
    (∀ (l : List Appuntamento) (f : GestoreAppuntamenti.FileState),
        (∀ x ∈ l, pyStrip x.titolo = x.titolo) →
        ∀ x ∈ (GestoreAppuntamenti._load l f).1,
          pyStrip x.titolo = x.titolo) := by
  refine ⟨Appuntamento.init_titolo_stripped, ?_, ?_, ?_, ?_⟩
  · intro d a h
    obtain ⟨t, st, n, rfl⟩ := from_dict_shape h
    exact pyStrip_idem t
  · intro l ap confirm writeOk hl hap x hx
    have hsorted : ∀ y ∈ (l ++ [ap]).insertionSort GestoreAppuntamenti.ascStart,
        pyStrip y.titolo = y.titolo := by
      intro y hy
      have : y ∈ l ++ [ap] :=
        (List.perm_insertionSort GestoreAppuntamenti.ascStart (l ++ [ap])).mem_iff.mp hy
      rcases List.mem_append.mp this with h' | h'
      · exact hl y h'
      · rw [List.mem_singleton.mp h']; exact hap
    cases hfo : GestoreAppuntamenti._find_overlap l ap with
    | some c =>
        cases confirm with
        | false =>
            have hres : (GestoreAppuntamenti._add_appointment l ap false writeOk).1 = l := by
              unfold GestoreAppuntamenti._add_appointment
              rw [hfo]
              rfl
            rw [hres] at hx
            exact hl x hx
        | true =>
            have hres : (GestoreAppuntamenti._add_appointment l ap true writeOk).1 =
                (l ++ [ap]).insertionSort GestoreAppuntamenti.ascStart := by
              unfold GestoreAppuntamenti._add_appointment
                GestoreAppuntamenti._refresh_list GestoreAppuntamenti._save
              rw [hfo]
              rfl
            rw [hres] at hx
            exact hsorted x hx
    | none =>
        have hres : (GestoreAppuntamenti._add_appointment l ap confirm writeOk).1 =
            (l ++ [ap]).insertionSort GestoreAppuntamenti.ascStart := by
          unfold GestoreAppuntamenti._add_appointment
            GestoreAppuntamenti._refresh_list GestoreAppuntamenti._save
          rw [hfo]
        rw [hres] at hx
        exact hsorted x hx
  · intro l idx confirm writeOk hl x hx
    by_cases h : idx < l.length
    · cases confirm with
      | false =>
          have hres : (GestoreAppuntamenti._delete_selected l idx false writeOk).1 = l := by
            unfold GestoreAppuntamenti._delete_selected
            rw [if_pos h]
            rfl
          rw [hres] at hx
          exact hl x hx
      | true =>
          have hres : (GestoreAppuntamenti._delete_selected l idx true writeOk).1 =
              (l.eraseIdx idx).insertionSort GestoreAppuntamenti.ascStart := by
            unfold GestoreAppuntamenti._delete_selected
              GestoreAppuntamenti._refresh_list GestoreAppuntamenti._save
            rw [if_pos h]
            rfl
          rw [hres] at hx
          have hx2 : x ∈ l.eraseIdx idx :=
            (List.perm_insertionSort GestoreAppuntamenti.ascStart
              (l.eraseIdx idx)).mem_iff.mp hx
          rw [List.eraseIdx_eq_take_drop_succ] at hx2
          rcases List.mem_append.mp hx2 with h' | h'
          · exact hl x (List.take_subset idx l h')
          · exact hl x (List.drop_subset (idx + 1) l h')
    · have hres : (GestoreAppuntamenti._delete_selected l idx confirm writeOk).1 = l := by
        unfold GestoreAppuntamenti._delete_selected
        rw [if_neg h]
      rw [hres] at hx
      exact hl x hx
  · intro l f hl x hx
    cases f with
    | absent => exact hl x hx
    | malformed => exact hl x hx
    | wellFormed recs =>
        cases hlr : GestoreAppuntamenti.loadRecords recs with
        | none =>
            have hres : (GestoreAppuntamenti._load l (.wellFormed recs)).1 = l := by
              have hstep : GestoreAppuntamenti._load l (.wellFormed recs) =
                  (match GestoreAppuntamenti.loadRecords recs with
                   | some aps => (aps, GestoreAppuntamenti.LoadOutcome.success)
                   | none => (l, GestoreAppuntamenti.LoadOutcome.formatError)) := rfl
              rw [hstep, hlr]
            rw [hres] at hx
            exact hl x hx
        | some aps =>
            have hres : (GestoreAppuntamenti._load l (.wellFormed recs)).1 = aps := by
              have hstep : GestoreAppuntamenti._load l (.wellFormed recs) =
                  (match GestoreAppuntamenti.loadRecords recs with
                   | some aps => (aps, GestoreAppuntamenti.LoadOutcome.success)
                   | none => (l, GestoreAppuntamenti.LoadOutcome.formatError)) := rfl
              rw [hstep, hlr]
            rw [hres] at hx
            obtain ⟨r, hr⟩ := loadRecords_mem hlr x hx
            obtain ⟨t, st, n, rfl⟩ := from_dict_shape hr
            exact pyStrip_idem t

/-- Witness for C10's add-preservation clause at a concrete store. -/
theorem C10_titles_stripped_witness :
    pyStrip apB.titolo = apB.titolo :=
  C10_titles_stripped.2.2.1 [apA] apB true true (by decide) (by decide)
    apB (by decide)

end Sched
